import Mathlib

/-!
Shallow embedding of `src/rust/otel-arrow-rust/src/otlp/attributes/store.rs`:
the attribute-store construction (`TryFrom<&RecordBatch> for AttributeStore<T>`),
the value-type tag enumeration, the in-place `find_or_append` bucket update,
and the two lookup operations (`attribute_by_id`, `attribute_by_delta_id`).

External collaborators (the `arrays` accessor module, the `cbor` structured
decoder, the `ParentId` trait in `parent_id.rs`, schema constants) are not part
of the given source tree; they are modelled from the specification where noted:
column accessors return `none` for a null cell or an entirely absent column and
callers normalize that to the type's zero default; the parent-id identifier is
an unsigned integer of width 16 or 32 with wrapping arithmetic; the structured
decoder is an arbitrary function `List Nat → Except DecodeError (Option Value)`.
Machine integers are modelled as `Nat` with explicit `% 2 ^ w` where wrapping
matters; `f64` payloads are carried as their IEEE-754 bit pattern (a `Nat`,
whose zero default `0` is the bit pattern of `0.0`), since the decoder only
moves them around and never computes with them.
-/

set_option autoImplicit false

namespace OtelStore

/-- Decode errors (`error::Error` variants reachable from `try_from`):
unrecognized value-type byte, missing mandatory column, and errors surfaced
from the external structured-value (CBOR) decoder. -/
inductive DecodeError where
  | unrecognizedValueType (b : Nat)
  | columnNotFound (name : String)
  | structuredDecode (msg : String)
deriving DecidableEq, Repr

/-- `AttributeValueType` (store.rs lines 28-39): `#[repr(u8)]` enumeration of
the 8 legal attribute value kinds, discriminants 0-7. -/
inductive AttributeValueType where
  | Empty
  | Str
  | Int
  | Double
  | Bool
  | Map
  | Slice
  | Bytes
deriving DecidableEq, Repr

/-- `AttributeValueType::try_from` (derived via `TryFromPrimitive`): a byte in
0-7 maps to the corresponding variant, any other byte fails; the failure is
wrapped by `try_from` into `UnrecognizedAttributeValueType` (store.rs line 104),
carrying the offending byte. -/
def AttributeValueType.tryFrom (b : Nat) : Except DecodeError AttributeValueType :=
  match b with
  | 0 => .ok .Empty
  | 1 => .ok .Str
  | 2 => .ok .Int
  | 3 => .ok .Double
  | 4 => .ok .Bool
  | 5 => .ok .Map
  | 6 => .ok .Slice
  | 7 => .ok .Bytes
  | b => .error (.unrecognizedValueType b)

/-- Attribute value payloads (proto `any_value::Value`, a collaborator type).
`DoubleValue` carries the `f64` bit pattern. `StructValue` stands in, opaquely,
for the nested (`ArrayValue`/`KvlistValue`) values produced by the external
structured decoder, whose internals are out of scope. -/
inductive Value where
  | StringValue (s : String)
  | IntValue (i : Int)
  | DoubleValue (bits : Nat)
  | BoolValue (b : Bool)
  | BytesValue (bs : List Nat)
  | StructValue (tok : Nat)
deriving DecidableEq, Repr

/-- Proto `AnyValue`: an optional `Value`. -/
structure AnyValue where
  value : Option Value
deriving DecidableEq, Repr

/-- Proto `KeyValue`: one attribute entry in a bucket. -/
structure KeyValue where
  key : String
  value : Option AnyValue
deriving DecidableEq, Repr

/-- A typed column of a record batch: one optional cell per row
(`none` = null cell). -/
abbrev Column (α : Type) : Type := List (Option α)

/-- Modelled from the spec: the null-safe typed column readers of the `arrays`
module return `none` for a null cell, a row out of range, or an entirely
absent column ("any column that is entirely absent from the batch is treated
as always null for every row, not as an error"). -/
def cellAt {α : Type} (col : Option (Column α)) (i : Nat) : Option α :=
  match col with
  | none => none
  | some c => (c.get? i).getD none

/-- Modelled from the spec: the parent-id column may be plain or
dictionary-encoded (shared value table plus per-row indices);
`MaybeDictArrayAccessor` transparently resolves index → value. -/
inductive ParentIdColumn where
  | plain (c : Column Nat)
  | dict (values : List Nat) (indices : Column Nat)
deriving DecidableEq, Repr

/-- Per-row readout of the parent-id column: a dictionary-encoded column
resolves the row's index into the shared value table before use. -/
def ParentIdColumn.valueAt : ParentIdColumn → Nat → Option Nat
  | .plain c, i => cellAt (some c) i
  | .dict values indices, i => (cellAt (some indices) i).bind (fun ix => values.get? ix)

/-- Materialize a dictionary-encoded parent-id column into a plain column with
the same per-row values. -/
def materializeDict (values : List Nat) (indices : Column Nat) : Column Nat :=
  indices.map (fun oi => oi.bind (fun ix => values.get? ix))

/-- A record batch, restricted to the columns `try_from` reads. Columns are
addressed by schema-constant names in the source (`consts::ATTRIBUTE_KEY`,
`ATTRIBUTE_TYPE`, `ATTRIBUTE_STR`, `ATTRIBUTE_INT`, `ATTRIBUTE_DOUBLE`,
`ATTRIBUTE_BOOL`, `ATTRIBUTE_BYTES`, `ATTRIBUTE_SER`, `PARENT_ID`); here each
named column is a field, `none` meaning the column is absent from the batch. -/
structure RecordBatch where
  numRows : Nat
  keyCol : Option (Column String)
  typeCol : Option (Column Nat)
  strCol : Option (Column String)
  intCol : Option (Column Int)
  doubleCol : Option (Column Nat)
  boolCol : Option (Column Bool)
  bytesCol : Option (Column (List Nat))
  serCol : Option (Column (List Nat))
  parentIdCol : Option ParentIdColumn
deriving DecidableEq, Repr

/-- The schema constant `consts::PARENT_ID`, the name reported by the
`ColumnNotFound` error for a missing parent-id column. -/
def parentIdName : String := "parent_id"

/-- Modelled from the spec: the stateful per-batch parent-id resolver
(`parent_id.rs`, not in the given sources). `T::new_decoder()` yields the
initial state; `decode(raw_field, key, value)` consumes one row in order and
returns the absolute parent id plus the successor state. -/
structure ParentIdDecoder (σ : Type) where
  init : σ
  decode : σ → Nat → String → Value → Nat × σ

/-- `AttributeStore<T>` (store.rs lines 44-48) at identifier width `w`
(16 or 32): the delta-lookup cursor `last_id` and the bucket map
`attribute_by_ids` from parent id to ordered attribute list. The Rust
`HashMap` is modelled as an association list with unique ids. -/
structure AttributeStore (w : Nat) where
  last_id : Nat
  attribute_by_ids : List (Nat × List KeyValue)
deriving DecidableEq, Repr

/-- `HashMap::get` on the bucket map: the bucket associated to `p`, if any. -/
def bucketGet : List (Nat × List KeyValue) → Nat → Option (List KeyValue)
  | [], _ => none
  | (q, b) :: rest, p => if q = p then some b else bucketGet rest p

/-- `attribute_by_id` (store.rs lines 61-63): exact lookup, read-only. -/
def AttributeStore.attributeById {w : Nat} (s : AttributeStore w) (id : Nat) :
    Option (List KeyValue) :=
  bucketGet s.attribute_by_ids id

/-- `attribute_by_delta_id` (store.rs lines 54-59): `last_id += delta` with the
wrapping unsigned arithmetic of the width-`w` identifier (modelled from the
spec: the id type has standard unsigned wraparound arithmetic), then look up
the new cursor. The mutation of `self` is made explicit by returning the
updated store alongside the result. -/
def AttributeStore.attributeByDeltaId {w : Nat} (s : AttributeStore w) (delta : Nat) :
    Option (List KeyValue) × AttributeStore w :=
  let next := (s.last_id + delta) % 2 ^ w
  (bucketGet s.attribute_by_ids next, { s with last_id := next })

/-- `Vec<KeyValue>::find_or_append` followed by the assignment
`*attributes.find_or_append(&key) = Some(AnyValue { value: Some(value) })`
(store.rs lines 155, 168-181): scan for the first entry with the given key and
replace its value in place (position unchanged); if none exists, append a new
entry with that key and value. -/
def findOrAppendSet : List KeyValue → String → Option AnyValue → List KeyValue
  | [], k, v => [⟨k, v⟩]
  | kv :: rest, k, v =>
    if kv.key = k then ⟨kv.key, v⟩ :: rest
    else kv :: findOrAppendSet rest k v

/-- One insertion into the bucket map (store.rs lines 153-155):
`entry(parent_id).or_default()` followed by the `find_or_append` assignment. -/
def updateBucket : List (Nat × List KeyValue) → Nat → String → Value →
    List (Nat × List KeyValue)
  | [], p, k, v => [(p, findOrAppendSet [] k (some ⟨some v⟩))]
  | (q, b) :: rest, p, k, v =>
    if q = p then (q, findOrAppendSet b k (some ⟨some v⟩)) :: rest
    else (q, b) :: updateBucket rest p k v

/-- The key read for one row (store.rs line 102):
`key_arr.value_at_or_default(idx)`, null or absent normalized to `""`. -/
def rowKey (rb : RecordBatch) (idx : Nat) : String :=
  (cellAt rb.keyCol idx).getD ""

/-- The per-row candidate key/value (store.rs lines 102-135): read the tag
byte (null defaulting to 0), convert it, and dispatch. `ok none` means the row
is skipped (`continue`); `error` aborts the batch. `cbor` is the external
structured decoder `cbor::decode_pcommon_val`. -/
def rowKeyValue (cbor : List Nat → Except DecodeError (Option Value))
    (rb : RecordBatch) (idx : Nat) :
    Except DecodeError (Option (String × Value)) :=
  let key := rowKey rb idx
  match AttributeValueType.tryFrom ((cellAt rb.typeCol idx).getD 0) with
  | .error e => .error e
  | .ok vt =>
    match vt with
    | .Str => .ok (some (key, .StringValue ((cellAt rb.strCol idx).getD "")))
    | .Int => .ok (some (key, .IntValue ((cellAt rb.intCol idx).getD 0)))
    | .Double => .ok (some (key, .DoubleValue ((cellAt rb.doubleCol idx).getD 0)))
    | .Bool => .ok (some (key, .BoolValue ((cellAt rb.boolCol idx).getD false)))
    | .Bytes => .ok (some (key, .BytesValue ((cellAt rb.bytesCol idx).getD [])))
    | .Map | .Slice =>
      match cellAt rb.serCol idx with
      | none => .ok none
      | some bytes =>
        match cbor bytes with
        | .error e => .error e
        | .ok none => .ok none
        | .ok (some v) => .ok (some (key, v))
    | .Empty => .ok none

/-- One iteration of the row loop (store.rs lines 101-156) acting on the
resolver state and the bucket map: skipped rows change nothing; a non-skipped
row requires the parent-id column (its absence is the hard error
`ColumnNotFound { name: consts::PARENT_ID }`), reads the raw field (null
defaulting to 0), resolves the absolute parent id, and inserts. -/
def stepRow {σ : Type} (pd : ParentIdDecoder σ)
    (cbor : List Nat → Except DecodeError (Option Value)) (rb : RecordBatch)
    (st : σ × List (Nat × List KeyValue)) (idx : Nat) :
    Except DecodeError (σ × List (Nat × List KeyValue)) :=
  match rowKeyValue cbor rb idx with
  | .error e => .error e
  | .ok none => .ok st
  | .ok (some (key, value)) =>
    match rb.parentIdCol with
    | none => .error (.columnNotFound parentIdName)
    | some pcol =>
      let raw := (pcol.valueAt idx).getD 0
      let ps := pd.decode st.1 raw key value
      .ok (ps.2, updateBucket st.2 ps.1 key value)

/-- The row loop `for idx in 0..rb.num_rows()`: process `count` rows starting
at `idx`, stopping at the first error. -/
def decodeRows {σ : Type} (pd : ParentIdDecoder σ)
    (cbor : List Nat → Except DecodeError (Option Value)) (rb : RecordBatch) :
    σ × List (Nat × List KeyValue) → Nat → Nat →
    Except DecodeError (σ × List (Nat × List KeyValue))
  | st, _, 0 => .ok st
  | st, idx, count + 1 =>
    match stepRow pd cbor rb st idx with
    | .error e => .error e
    | .ok st' => decodeRows pd cbor rb st' (idx + 1) count

/-- `TryFrom<&RecordBatch> for AttributeStore<T>` (store.rs lines 74-159):
start from `Self::default()` (cursor 0, empty map), run the row loop over all
rows, and return the store, or the first error with all partial work
discarded. -/
def AttributeStore.tryFrom (w : Nat) {σ : Type} (pd : ParentIdDecoder σ)
    (cbor : List Nat → Except DecodeError (Option Value)) (rb : RecordBatch) :
    Except DecodeError (AttributeStore w) :=
  match decodeRows pd cbor rb (pd.init, []) 0 rb.numRows with
  | .error e => .error e
  | .ok st => .ok ⟨0, st.2⟩

/-- The sequence of contributions of the row loop: for each non-skipped row in
order, the resolved parent id, key, and value that `try_from` inserts. Threads
the resolver state exactly as the loop does and fails on exactly the same
conditions. -/
def contribRows {σ : Type} (pd : ParentIdDecoder σ)
    (cbor : List Nat → Except DecodeError (Option Value)) (rb : RecordBatch) :
    σ → Nat → Nat → Except DecodeError (σ × List (Nat × String × Value))
  | s, _, 0 => .ok (s, [])
  | s, idx, count + 1 =>
    match rowKeyValue cbor rb idx with
    | .error e => .error e
    | .ok none => contribRows pd cbor rb s (idx + 1) count
    | .ok (some (key, value)) =>
      match rb.parentIdCol with
      | none => .error (.columnNotFound parentIdName)
      | some pcol =>
        let raw := (pcol.valueAt idx).getD 0
        let ps := pd.decode s raw key value
        match contribRows pd cbor rb ps.2 (idx + 1) count with
        | .error e => .error e
        | .ok r => .ok (r.1, (ps.1, key, value) :: r.2)

/-- The whole-batch contribution sequence, starting from the fresh resolver. -/
def attributeContribs {σ : Type} (pd : ParentIdDecoder σ)
    (cbor : List Nat → Except DecodeError (Option Value)) (rb : RecordBatch) :
    Except DecodeError (List (Nat × String × Value)) :=
  (contribRows pd cbor rb pd.init 0 rb.numRows).map (fun r => r.2)

/-- Fold a contribution sequence into a bucket map by repeated insertion. -/
def foldBuckets (B : List (Nat × List KeyValue)) (L : List (Nat × String × Value)) :
    List (Nat × List KeyValue) :=
  L.foldl (fun m t => updateBucket m t.1 t.2.1 t.2.2) B

/-- The (key, value) pairs of the contributions that resolved to parent `p`,
in row order. -/
def pairsFor (p : Nat) (L : List (Nat × String × Value)) : List (String × Value) :=
  L.filterMap (fun t => if t.1 = p then some (t.2.1, t.2.2) else none)

/-- Fold (key, value) pairs into a bucket by the `find_or_append` assignment. -/
def bucketFold (b : List KeyValue) (ps : List (String × Value)) : List KeyValue :=
  ps.foldl (fun acc t => findOrAppendSet acc t.1 (some ⟨some t.2⟩)) b

/-- Apply (key, value) pairs to an optional bucket, creating it on the first
pair (the `entry(..).or_default()` effect): `none` stays `none` only when no
pair arrives. -/
def applyPairs (b : Option (List KeyValue)) : List (String × Value) → Option (List KeyValue)
  | [] => b
  | (k, v) :: rest => applyPairs (some (findOrAppendSet (b.getD []) k (some ⟨some v⟩))) rest

/-- The keys of a bucket, in entry order. -/
def keysOf (b : List KeyValue) : List String :=
  b.map (fun kv => kv.key)

/-- Record a key in a first-occurrence key list. -/
def addKey (acc : List String) (k : String) : List String :=
  if k ∈ acc then acc else acc ++ [k]

/-- The distinct keys of a sequence, in order of first occurrence. -/
def firstOccKeys (ks : List String) : List String :=
  ks.foldl addKey []

/-- The first entry of a bucket with the given key, if any. -/
def bucketFind (k : String) : List KeyValue → Option KeyValue
  | [] => none
  | kv :: rest => if kv.key = k then some kv else bucketFind k rest

/-- The value of the last pair with the given key, if any. -/
def lastValueFor (k : String) : List (String × Value) → Option Value
  | [] => none
  | (k0, v0) :: rest =>
    match lastValueFor k rest with
    | some v => some v
    | none => if k0 = k then some v0 else none

/-- The position of the first occurrence of `k` in a key list (its length if
`k` does not occur). -/
def posOf (k : String) : List String → Nat
  | [] => 0
  | k0 :: rest => if k0 = k then 0 else posOf k rest + 1

/-- A trivial concrete resolver for concrete evaluations: the absolute parent
id is the raw field itself (the non-delta, non-reset resolver behaviour). -/
def pdRaw : ParentIdDecoder Unit :=
  ⟨(), fun _ raw _ _ => (raw, ())⟩

/-- A trivial concrete structured decoder for concrete evaluations: every
payload decodes to "no value". -/
def cborNone : List Nat → Except DecodeError (Option Value) :=
  fun _ => .ok none

/-- A concrete zero-row batch with every optional column present (and empty)
but no parent-id column. -/
def rbNoParent : RecordBatch :=
  ⟨0, some [], some [], some [], some [], some [], some [], some [], some [], none⟩

/-- A concrete two-row batch: row 0 is a valid `Str` row, row 1 carries the
invalid tag byte 99. -/
def rbTag99 : RecordBatch :=
  ⟨2, none, some [some 1, some 99], none, none, none, none, none, none,
    some (.plain [some 1, some 1])⟩

/-- A concrete one-row batch whose type-tag cell is null. -/
def rbNullTag : RecordBatch :=
  ⟨1, none, some [none], none, none, none, none, none, none,
    some (.plain [some 1])⟩

/-- A concrete one-row batch tagged `Str` whose key and string-payload columns
are entirely absent. -/
def rbNullStr : RecordBatch :=
  ⟨1, none, some [some 1], none, none, none, none, none, none,
    some (.plain [some 1])⟩

/-- A concrete two-row batch: row 0 tagged `Empty` (skipped), row 1 a `Str`
row resolving to parent 3. -/
def rbSkip : RecordBatch :=
  ⟨2, none, some [some 0, some 1], none, none, none, none, none, none,
    some (.plain [some 9, some 3])⟩

/-- A concrete one-row batch whose parent-id column is dictionary-encoded:
the row's index 1 resolves to id 20 in the value table. -/
def rbDict : RecordBatch :=
  ⟨1, none, some [some 1], none, none, none, none, none, none,
    some (.dict [10, 20] [some 1])⟩

/-- A concrete two-row batch: both rows resolve to parent 7 with key "foo",
row 0 a `Str` value and row 1 an `Int` value. -/
def rbDup : RecordBatch :=
  ⟨2, some [some "foo", some "foo"], some [some 1, some 2],
    some [some "bar", none], some [none, some 5], none, none, none, none,
    some (.plain [some 7, some 7])⟩

theorem bucketGet_updateBucket (B : List (Nat × List KeyValue)) (p : Nat) (k : String)
    (v : Value) (q : Nat) :
    bucketGet (updateBucket B p k v) q =
      if q = p then some (findOrAppendSet ((bucketGet B p).getD []) k (some ⟨some v⟩))
      else bucketGet B q := by
  induction B with
  | nil =>
    by_cases h : q = p
    · subst h; simp [updateBucket, bucketGet]
    · simp [updateBucket, bucketGet, h, Ne.symm h]
  | cons hd rest ih =>
    obtain ⟨a, b⟩ := hd
    by_cases hap : a = p
    · subst hap
      by_cases hq : q = a
      · subst hq; simp [updateBucket, bucketGet]
      · simp [updateBucket, bucketGet, hq, Ne.symm hq]
    · by_cases hq : a = q
      · subst hq
        simp [updateBucket, bucketGet, hap, Ne.symm hap]
      · simp [updateBucket, bucketGet, hap, hq, ih]

theorem bucketGet_foldBuckets (L : List (Nat × String × Value))
    (B : List (Nat × List KeyValue)) (q : Nat) :
    bucketGet (foldBuckets B L) q = applyPairs (bucketGet B q) (pairsFor q L) := by
  induction L generalizing B with
  | nil => simp [foldBuckets, pairsFor, applyPairs]
  | cons t rest ih =>
    obtain ⟨p, k, v⟩ := t
    have hstep : foldBuckets B ((p, k, v) :: rest) = foldBuckets (updateBucket B p k v) rest := rfl
    rw [hstep, ih]
    by_cases h : q = p
    · subst h
      simp [pairsFor, applyPairs, bucketGet_updateBucket]
    · have hne : p ≠ q := fun hh => h hh.symm
      simp [pairsFor, hne, bucketGet_updateBucket, h]

theorem applyPairs_some (b : List KeyValue) (ps : List (String × Value)) :
    applyPairs (some b) ps = some (bucketFold b ps) := by
  induction ps generalizing b with
  | nil => simp [applyPairs, bucketFold]
  | cons t rest ih =>
    obtain ⟨k, v⟩ := t
    simp only [applyPairs, Option.getD_some]
    rw [ih]
    rfl

theorem applyPairs_none_of_ne_nil (ps : List (String × Value)) (h : ps ≠ []) :
    applyPairs none ps = some (bucketFold [] ps) := by
  cases ps with
  | nil => exact absurd rfl h
  | cons t rest =>
    obtain ⟨k, v⟩ := t
    simp only [applyPairs, Option.getD_none]
    rw [applyPairs_some]
    rfl

theorem applyPairs_none_eq_none_iff (ps : List (String × Value)) :
    applyPairs none ps = none ↔ ps = [] := by
  constructor
  · intro h
    by_contra hne
    rw [applyPairs_none_of_ne_nil ps hne] at h
    exact Option.some_ne_none _ h
  · intro h; subst h; rfl

theorem addKey_cons (k0 : String) (acc : List String) (k : String) (h : k ≠ k0) :
    addKey (k0 :: acc) k = k0 :: addKey acc k := by
  unfold addKey
  by_cases hm : k ∈ acc
  · simp [hm]
  · simp [hm, h]

theorem keysOf_findOrAppendSet (b : List KeyValue) (k : String) (v : Option AnyValue) :
    keysOf (findOrAppendSet b k v) = addKey (keysOf b) k := by
  induction b with
  | nil => simp [findOrAppendSet, keysOf, addKey]
  | cons kv rest ih =>
    by_cases h : kv.key = k
    · simp [findOrAppendSet, keysOf, addKey, h]
    · simp only [findOrAppendSet, if_neg h, keysOf, List.map_cons] at *
      rw [ih]
      exact (addKey_cons kv.key (List.map (fun kv => kv.key) rest) k (Ne.symm h)).symm

theorem keysOf_bucketFold (ps : List (String × Value)) (b : List KeyValue) :
    keysOf (bucketFold b ps) = ps.foldl (fun acc t => addKey acc t.1) (keysOf b) := by
  induction ps generalizing b with
  | nil => rfl
  | cons t rest ih =>
    obtain ⟨k, v⟩ := t
    have hstep : bucketFold b ((k, v) :: rest) =
        bucketFold (findOrAppendSet b k (some ⟨some v⟩)) rest := rfl
    rw [hstep, ih, keysOf_findOrAppendSet]
    rfl

theorem addKey_nodup (acc : List String) (k : String) (h : acc.Nodup) :
    (addKey acc k).Nodup := by
  unfold addKey
  by_cases hm : k ∈ acc
  · simpa [hm]
  · simp only [if_neg hm]
    refine List.nodup_append.mpr ⟨h, List.nodup_singleton k, ?_⟩
    intro a ha hb
    rw [List.mem_singleton] at hb
    exact hm (hb ▸ ha)

theorem foldl_addKey_nodup (ks : List String) (acc : List String) (h : acc.Nodup) :
    (ks.foldl addKey acc).Nodup := by
  induction ks generalizing acc with
  | nil => simpa
  | cons k rest ih => exact ih (addKey acc k) (addKey_nodup acc k h)

theorem bucketFind_findOrAppendSet_same (b : List KeyValue) (k : String) (v : Option AnyValue) :
    bucketFind k (findOrAppendSet b k v) = some ⟨k, v⟩ := by
  induction b with
  | nil => simp [findOrAppendSet, bucketFind]
  | cons kv rest ih =>
    by_cases h : kv.key = k
    · simp [findOrAppendSet, bucketFind, h]
    · simp [findOrAppendSet, bucketFind, h, ih]

theorem bucketFind_findOrAppendSet_other (b : List KeyValue) (k k' : String)
    (v : Option AnyValue) (h : k' ≠ k) :
    bucketFind k' (findOrAppendSet b k v) = bucketFind k' b := by
  induction b with
  | nil => simp [findOrAppendSet, bucketFind, Ne.symm h]
  | cons kv rest ih =>
    by_cases hk : kv.key = k
    · simp [findOrAppendSet, bucketFind, hk, Ne.symm h]
    · by_cases hk' : kv.key = k'
      · simp [findOrAppendSet, bucketFind, hk, hk', h]
      · simp [findOrAppendSet, bucketFind, hk, hk', ih]

theorem bucketFind_bucketFold (ps : List (String × Value)) (b : List KeyValue) (k : String) :
    bucketFind k (bucketFold b ps) =
      match lastValueFor k ps with
      | some v => some ⟨k, some ⟨some v⟩⟩
      | none => bucketFind k b := by
  induction ps generalizing b with
  | nil => simp [bucketFold, lastValueFor]
  | cons t rest ih =>
    obtain ⟨k0, v0⟩ := t
    have hstep : bucketFold b ((k0, v0) :: rest) =
        bucketFold (findOrAppendSet b k0 (some ⟨some v0⟩)) rest := rfl
    have hcons : lastValueFor k ((k0, v0) :: rest) =
        (match lastValueFor k rest with
          | some v => some v
          | none => if k0 = k then some v0 else none) := rfl
    rw [hstep, ih, hcons]
    cases hrest : lastValueFor k rest with
    | some v => simp
    | none =>
      by_cases h0 : k0 = k
      · subst h0
        simp [bucketFind_findOrAppendSet_same]
      · simp [h0, bucketFind_findOrAppendSet_other b k0 k _ (Ne.symm h0)]

theorem bucketFind_some_key_mem (b : List KeyValue) (k : String) (kv : KeyValue)
    (h : bucketFind k b = some kv) : kv.key = k ∧ k ∈ keysOf b := by
  induction b with
  | nil => simp [bucketFind] at h
  | cons kv0 rest ih =>
    by_cases hk : kv0.key = k
    · rw [bucketFind, if_pos hk] at h
      cases h
      exact ⟨hk, by simp [keysOf, hk]⟩
    · rw [bucketFind, if_neg hk] at h
      obtain ⟨h1, h2⟩ := ih h
      exact ⟨h1, by simp [keysOf] at h2 ⊢; exact Or.inr h2⟩

theorem get?_posOf (b : List KeyValue) (k : String) :
    b.get? (posOf k (keysOf b)) = bucketFind k b := by
  induction b with
  | nil => simp [keysOf, posOf, bucketFind]
  | cons kv rest ih =>
    by_cases h : kv.key = k
    · simp [keysOf, posOf, bucketFind, h]
    · rw [show keysOf (kv :: rest) = kv.key :: keysOf rest from rfl]
      rw [show posOf k (kv.key :: keysOf rest) = posOf k (keysOf rest) + 1 from by
        simp [posOf, h]]
      rw [show (kv :: rest).get? (posOf k (keysOf rest) + 1) =
        rest.get? (posOf k (keysOf rest)) from rfl]
      rw [ih]
      simp [bucketFind, h]

theorem countP_key_eq_one (b : List KeyValue) (k : String)
    (hnd : (keysOf b).Nodup) (hmem : k ∈ keysOf b) :
    b.countP (fun kv => kv.key == k) = 1 := by
  have h1 : b.countP (fun kv => kv.key == k) = (keysOf b).countP (fun s => s == k) := by
    unfold keysOf
    rw [List.countP_map]
    rfl
  have h2 : (keysOf b).countP (fun s => s == k) = (keysOf b).count k := by
    rfl
  rw [h1, h2]
  exact List.count_eq_one_of_mem hnd hmem

theorem lastValueFor_eq_none (k : String) (ps : List (String × Value))
    (h : ∀ t ∈ ps, t.1 ≠ k) : lastValueFor k ps = none := by
  induction ps with
  | nil => rfl
  | cons t rest ih =>
    obtain ⟨k0, v0⟩ := t
    have h0 : k0 ≠ k := h (k0, v0) (List.mem_cons_self _ _)
    have hrest : lastValueFor k rest = none := ih (fun t ht => h t (List.mem_cons_of_mem _ ht))
    unfold lastValueFor
    rw [hrest]
    simp [h0]

theorem lastValueFor_none_of_no_pair (p : Nat) (k : String) (L : List (Nat × String × Value))
    (h : ∀ t ∈ L, ¬(t.1 = p ∧ t.2.1 = k)) : lastValueFor k (pairsFor p L) = none := by
  apply lastValueFor_eq_none
  intro t ht
  unfold pairsFor at ht
  rw [List.mem_filterMap] at ht
  obtain ⟨a, ha, hfa⟩ := ht
  by_cases hp : a.1 = p
  · rw [if_pos hp] at hfa
    cases hfa
    exact fun hk => h a ha ⟨hp, hk⟩
  · rw [if_neg hp] at hfa
    cases hfa

theorem lastValueFor_cons (k k0 : String) (v0 : Value) (ps : List (String × Value)) :
    lastValueFor k ((k0, v0) :: ps) =
      match lastValueFor k ps with
      | some v => some v
      | none => if k0 = k then some v0 else none := rfl

theorem lastValueFor_of_get (L : List (Nat × String × Value)) :
    ∀ (j : Nat) (p : Nat) (k : String) (vj : Value),
    L.get? j = some (p, k, vj) →
    (∀ l t, j < l → L.get? l = some t → ¬(t.1 = p ∧ t.2.1 = k)) →
    lastValueFor k (pairsFor p L) = some vj := by
  induction L with
  | nil => intro j p k vj hj _; simp at hj
  | cons t0 rest ih =>
    intro j p k vj hj hlast
    cases j with
    | zero =>
      have ht0 : t0 = (p, k, vj) := by simpa using hj
      subst ht0
      have hnone : lastValueFor k (pairsFor p rest) = none := by
        apply lastValueFor_none_of_no_pair
        intro t ht
        obtain ⟨n, hn⟩ := List.get?_of_mem ht
        exact hlast (n + 1) t (by omega) (by simpa using hn)
      have hp : pairsFor p ((p, k, vj) :: rest) = (k, vj) :: pairsFor p rest := by
        simp [pairsFor]
      rw [hp, lastValueFor_cons, hnone]
      simp
    | succ j =>
      have hj' : rest.get? j = some (p, k, vj) := by simpa using hj
      have hlast' : ∀ l t, j < l → rest.get? l = some t → ¬(t.1 = p ∧ t.2.1 = k) := by
        intro l t hl hget
        exact hlast (l + 1) t (by omega) (by simpa using hget)
      have hrest := ih j p k vj hj' hlast'
      obtain ⟨q0, k0, v0⟩ := t0
      by_cases hq : q0 = p
      · subst hq
        have hp : pairsFor q0 ((q0, k0, v0) :: rest) = (k0, v0) :: pairsFor q0 rest := by
          simp [pairsFor]
        rw [hp, lastValueFor_cons, hrest]
      · have hp : pairsFor p ((q0, k0, v0) :: rest) = pairsFor p rest := by
          simp [pairsFor, hq]
        rw [hp, hrest]

theorem pairsFor_ne_nil_of_get (L : List (Nat × String × Value)) (j : Nat) (p : Nat)
    (k : String) (v : Value) (h : L.get? j = some (p, k, v)) : pairsFor p L ≠ [] := by
  have hm : (p, k, v) ∈ L := List.get?_mem h
  intro hnil
  have hkv : (k, v) ∈ pairsFor p L := by
    unfold pairsFor
    rw [List.mem_filterMap]
    exact ⟨(p, k, v), hm, by simp⟩
  rw [hnil] at hkv
  simp at hkv

theorem pairsFor_eq_nil_iff (p : Nat) (L : List (Nat × String × Value)) :
    pairsFor p L = [] ↔ p ∉ L.map (fun t => t.1) := by
  unfold pairsFor
  rw [List.filterMap_eq_nil_iff]
  constructor
  · intro h hmem
    rw [List.mem_map] at hmem
    obtain ⟨t, ht, hp⟩ := hmem
    have := h t ht
    simp [hp] at this
  · intro h t ht
    by_cases hp : t.1 = p
    · exact absurd (List.mem_map.mpr ⟨t, ht, hp⟩) h
    · simp [hp]

theorem decodeRows_append {σ : Type} (pd : ParentIdDecoder σ)
    (cbor : List Nat → Except DecodeError (Option Value)) (rb : RecordBatch)
    (a b : Nat) (st : σ × List (Nat × List KeyValue)) (idx : Nat) :
    decodeRows pd cbor rb st idx (a + b) =
      match decodeRows pd cbor rb st idx a with
      | .error e => .error e
      | .ok st' => decodeRows pd cbor rb st' (idx + a) b := by
  induction a generalizing st idx with
  | zero => simp [decodeRows]
  | succ a ih =>
    have h1 : a + 1 + b = (a + b) + 1 := by omega
    rw [h1]
    have hL : decodeRows pd cbor rb st idx ((a + b) + 1) =
        (match stepRow pd cbor rb st idx with
          | .error e => .error e
          | .ok st' => decodeRows pd cbor rb st' (idx + 1) (a + b)) := rfl
    have hA : decodeRows pd cbor rb st idx (a + 1) =
        (match stepRow pd cbor rb st idx with
          | .error e => .error e
          | .ok st' => decodeRows pd cbor rb st' (idx + 1) a) := rfl
    rw [hL, hA]
    cases hstep : stepRow pd cbor rb st idx with
    | error e => rfl
    | ok st' =>
      show decodeRows pd cbor rb st' (idx + 1) (a + b) =
        match decodeRows pd cbor rb st' (idx + 1) a with
        | .error e => .error e
        | .ok st'' => decodeRows pd cbor rb st'' (idx + (a + 1)) b
      rw [ih]
      rw [show idx + 1 + a = idx + (a + 1) from by omega]

theorem decodeRows_eq_contrib {σ : Type} (pd : ParentIdDecoder σ)
    (cbor : List Nat → Except DecodeError (Option Value)) (rb : RecordBatch) :
    ∀ (count idx : Nat) (s : σ) (B : List (Nat × List KeyValue)),
    decodeRows pd cbor rb (s, B) idx count =
      (contribRows pd cbor rb s idx count).map (fun r => (r.1, foldBuckets B r.2)) := by
  intro count
  induction count with
  | zero => intro idx s B; rfl
  | succ count ih =>
    intro idx s B
    cases hrv : rowKeyValue cbor rb idx with
    | error e => simp [decodeRows, contribRows, stepRow, hrv, Except.map]
    | ok o =>
      cases o with
      | none =>
        have hL : decodeRows pd cbor rb (s, B) idx (count + 1) =
            decodeRows pd cbor rb (s, B) (idx + 1) count := by
          simp [decodeRows, stepRow, hrv]
        have hR : contribRows pd cbor rb s idx (count + 1) =
            contribRows pd cbor rb s (idx + 1) count := by
          simp [contribRows, hrv]
        rw [hL, hR, ih]
      | some kv =>
        obtain ⟨key, value⟩ := kv
        cases hp : rb.parentIdCol with
        | none => simp [decodeRows, contribRows, stepRow, hrv, hp, Except.map]
        | some pcol =>
          have hL : decodeRows pd cbor rb (s, B) idx (count + 1) =
              decodeRows pd cbor rb
                ((pd.decode s ((pcol.valueAt idx).getD 0) key value).2,
                  updateBucket B (pd.decode s ((pcol.valueAt idx).getD 0) key value).1
                    key value) (idx + 1) count := by
            simp [decodeRows, stepRow, hrv, hp]
          rw [hL, ih]
          have hR : contribRows pd cbor rb s idx (count + 1) =
              (match contribRows pd cbor rb
                  (pd.decode s ((pcol.valueAt idx).getD 0) key value).2 (idx + 1) count with
                | .error e => .error e
                | .ok r => .ok (r.1,
                    ((pd.decode s ((pcol.valueAt idx).getD 0) key value).1, key, value)
                      :: r.2)) := by
            simp [contribRows, hrv, hp]
          rw [hR]
          cases hc : contribRows pd cbor rb
              (pd.decode s ((pcol.valueAt idx).getD 0) key value).2 (idx + 1) count with
          | error e => rfl
          | ok r => rfl

theorem tryFrom_ok_buckets {σ : Type} (w : Nat) (pd : ParentIdDecoder σ)
    (cbor : List Nat → Except DecodeError (Option Value)) (rb : RecordBatch)
    (store : AttributeStore w) (L : List (Nat × String × Value))
    (hs : AttributeStore.tryFrom w pd cbor rb = .ok store)
    (hL : attributeContribs pd cbor rb = .ok L) :
    store.last_id = 0 ∧ store.attribute_by_ids = foldBuckets [] L := by
  unfold AttributeStore.tryFrom at hs
  unfold attributeContribs at hL
  rw [decodeRows_eq_contrib pd cbor rb rb.numRows 0 pd.init []] at hs
  cases hc : contribRows pd cbor rb pd.init 0 rb.numRows with
  | error e =>
    rw [hc] at hs
    simp [Except.map] at hs
  | ok r =>
    rw [hc] at hs hL
    simp only [Except.map, Except.ok.injEq] at hs hL
    subst hL
    rw [← hs]
    exact ⟨rfl, rfl⟩

theorem tryFrom_error_of_step {σ : Type} (w : Nat) (pd : ParentIdDecoder σ)
    (cbor : List Nat → Except DecodeError (Option Value)) (rb : RecordBatch)
    (i : Nat) (st : σ × List (Nat × List KeyValue)) (e : DecodeError)
    (hi : i < rb.numRows)
    (hpre : decodeRows pd cbor rb (pd.init, []) 0 i = .ok st)
    (hstep : stepRow pd cbor rb st i = .error e) :
    AttributeStore.tryFrom w pd cbor rb = .error e := by
  have hsplit := decodeRows_append pd cbor rb i (rb.numRows - i) (pd.init, []) 0
  rw [show i + (rb.numRows - i) = rb.numRows from by omega] at hsplit
  unfold AttributeStore.tryFrom
  rw [hsplit, hpre]
  obtain ⟨m, hm⟩ : ∃ m, rb.numRows - i = m + 1 := ⟨rb.numRows - i - 1, by omega⟩
  rw [hm]
  show (match decodeRows pd cbor rb st (0 + i) (m + 1) with
    | Except.error e => Except.error e
    | Except.ok st' => Except.ok (⟨0, st'.2⟩ : AttributeStore w)) = _
  have hrow : decodeRows pd cbor rb st (0 + i) (m + 1) =
      (match stepRow pd cbor rb st (0 + i) with
        | .error e => .error e
        | .ok st' => decodeRows pd cbor rb st' (0 + i + 1) m) := rfl
  rw [hrow, show 0 + i = i from by omega, hstep]

theorem decodeRows_all_skip {σ : Type} (pd : ParentIdDecoder σ)
    (cbor : List Nat → Except DecodeError (Option Value)) (rb : RecordBatch) :
    ∀ (count idx : Nat) (st : σ × List (Nat × List KeyValue)),
    (∀ l, l < count → rowKeyValue cbor rb (idx + l) = .ok none) →
    decodeRows pd cbor rb st idx count = .ok st := by
  intro count
  induction count with
  | zero => intro idx st _; rfl
  | succ count ih =>
    intro idx st h
    have h0 : rowKeyValue cbor rb idx = .ok none := by
      have := h 0 (by omega)
      simpa using this
    have hL : decodeRows pd cbor rb st idx (count + 1) =
        decodeRows pd cbor rb st (idx + 1) count := by
      simp [decodeRows, stepRow, h0]
    rw [hL]
    exact ih (idx + 1) st (fun l hl => by
      have := h (l + 1) (by omega)
      rw [show idx + 1 + l = idx + (l + 1) from by omega]
      exact this)

/-- Claim C3: for both store widths, the delta-lookup cursor wraps modulo the
identifier width with unsigned overflow semantics: `lookup_by_delta` with
delta 1 while the cursor holds the maximum representable id sets the cursor to
0 (16-bit store wraps at 2^16, 32-bit store at 2^32), and the lookup then
proceeds at the wrapped id 0. -/
theorem c3_delta_cursor_wraparound (s16 : AttributeStore 16) (s32 : AttributeStore 32) :
    (s16.last_id = 2 ^ 16 - 1 →
      (s16.attributeByDeltaId 1).2.last_id = 0 ∧
      (s16.attributeByDeltaId 1).1 = s16.attributeById 0) ∧
    (s32.last_id = 2 ^ 32 - 1 →
      (s32.attributeByDeltaId 1).2.last_id = 0 ∧
      (s32.attributeByDeltaId 1).1 = s32.attributeById 0) := by
  constructor
  · intro h
    unfold AttributeStore.attributeByDeltaId AttributeStore.attributeById
    rw [h]
    norm_num
  · intro h
    unfold AttributeStore.attributeByDeltaId AttributeStore.attributeById
    rw [h]
    norm_num

/-- Witness for C3 at concrete stores holding the maximum 16-bit and 32-bit
ids. -/
theorem c3_delta_cursor_wraparound_witness :
    (((⟨65535, []⟩ : AttributeStore 16).attributeByDeltaId 1).2.last_id = 0 ∧
      ((⟨65535, []⟩ : AttributeStore 16).attributeByDeltaId 1).1 =
        (⟨65535, []⟩ : AttributeStore 16).attributeById 0) ∧
    (((⟨4294967295, []⟩ : AttributeStore 32).attributeByDeltaId 1).2.last_id = 0 ∧
      ((⟨4294967295, []⟩ : AttributeStore 32).attributeByDeltaId 1).1 =
        (⟨4294967295, []⟩ : AttributeStore 32).attributeById 0) :=
  ⟨(c3_delta_cursor_wraparound ⟨65535, []⟩ ⟨4294967295, []⟩).1 (by norm_num),
    (c3_delta_cursor_wraparound ⟨65535, []⟩ ⟨4294967295, []⟩).2 (by norm_num)⟩

/-- Claim C7: `lookup_by_delta(d)` first advances the shared cursor by `d`
(wrapping) and then returns exactly what `lookup` returns for the new cursor
value, leaving the bucket map unchanged; `lookup` by exact id performs no
mutation (it is a pure read of the bucket map, independent of the cursor). -/
theorem c7_delta_lookup_agreement (w : Nat) (s : AttributeStore w) (d : Nat) :
    (s.attributeByDeltaId d).2.last_id = (s.last_id + d) % 2 ^ w ∧
    (s.attributeByDeltaId d).2.attribute_by_ids = s.attribute_by_ids ∧
    (s.attributeByDeltaId d).1 =
      (s.attributeByDeltaId d).2.attributeById ((s.last_id + d) % 2 ^ w) ∧
    (∀ c id, (AttributeStore.mk (w := w) c s.attribute_by_ids).attributeById id =
      s.attributeById id) :=
  ⟨rfl, rfl, rfl, fun _ _ => rfl⟩

/-- Claim C4: converting a raw byte to a value-type tag succeeds iff the byte
is at most 7; any other byte fails with `UnrecognizedValueType` carrying that
byte; and a single row with tag byte 99 reached by the loop makes the whole
batch decode fail with `UnrecognizedValueType(99)` regardless of the valid
rows before it. -/
theorem c4_tag_validity :
    (∀ b : Nat, (∃ t, AttributeValueType.tryFrom b = .ok t) ↔ b ≤ 7) ∧
    (∀ b : Nat, 7 < b →
      AttributeValueType.tryFrom b = .error (.unrecognizedValueType b)) ∧
    (∀ (σ : Type) (w : Nat) (pd : ParentIdDecoder σ)
      (cbor : List Nat → Except DecodeError (Option Value)) (rb : RecordBatch)
      (i : Nat) (st : σ × List (Nat × List KeyValue)),
      i < rb.numRows →
      decodeRows pd cbor rb (pd.init, []) 0 i = .ok st →
      (cellAt rb.typeCol i).getD 0 = 99 →
      AttributeStore.tryFrom w pd cbor rb = .error (.unrecognizedValueType 99)) := by
  have hge : ∀ b : Nat, 7 < b →
      AttributeValueType.tryFrom b = .error (.unrecognizedValueType b) := by
    intro b h
    match b, h with
    | n + 8, _ => rfl
  refine ⟨?_, hge, ?_⟩
  · intro b
    constructor
    · rintro ⟨t, ht⟩
      by_contra h
      push_neg at h
      rw [hge b h] at ht
      simp at ht
    · intro h
      interval_cases b <;> exact ⟨_, rfl⟩
  · intro σ w pd cbor rb i st hi hpre htag
    have hrow : rowKeyValue cbor rb i = .error (.unrecognizedValueType 99) := by
      unfold rowKeyValue
      rw [htag]
      rfl
    have hstep : stepRow pd cbor rb st i = .error (.unrecognizedValueType 99) := by
      unfold stepRow
      rw [hrow]
    exact tryFrom_error_of_step w pd cbor rb i st _ hi hpre hstep

/-- Witness for C4 at a concrete batch whose row 1 carries tag byte 99, its
row 0 being a valid `Str` row. -/
theorem c4_tag_validity_witness :
    AttributeStore.tryFrom 16 pdRaw cborNone rbTag99 =
      .error (.unrecognizedValueType 99) :=
  c4_tag_validity.2.2 Unit 16 pdRaw cborNone rbTag99 1
    ((), [(1, [⟨"", some ⟨some (.StringValue "")⟩⟩])])
    (by decide) (by rfl) (by rfl)

/-- Claim C10: a row whose type-tag cell is null (or whose type-tag column
yields no value for that row) defaults the tag byte to 0, is treated as
`Empty`, and is silently skipped: it contributes no entry and raises no
error. -/
theorem c10_null_tag_skipped (cbor : List Nat → Except DecodeError (Option Value))
    (rb : RecordBatch) (i : Nat) (h : cellAt rb.typeCol i = none) :
    AttributeValueType.tryFrom ((cellAt rb.typeCol i).getD 0) = .ok .Empty ∧
    rowKeyValue cbor rb i = .ok none := by
  constructor
  · rw [h]
    rfl
  · unfold rowKeyValue
    rw [h]
    rfl

/-- Witness for C10 at a concrete one-row batch with a null type-tag cell. -/
theorem c10_null_tag_skipped_witness :
    AttributeValueType.tryFrom ((cellAt rbNullTag.typeCol 0).getD 0) = .ok .Empty ∧
    rowKeyValue cborNone rbNullTag 0 = .ok none :=
  c10_null_tag_skipped cborNone rbNullTag 0 (by rfl)

/-- Claim C8: for a non-skipped row, a null cell in the key column or in the
`Str`/`Int`/`Double`/`Bool`/`Bytes` payload column — including the case where
the optional column is entirely absent from the batch, which makes every cell
read `none` — is normalized to the type's zero default (empty string key,
empty string, 0, 0.0 as bit pattern 0, false, empty bytes) and never surfaces
as an error. -/
theorem c8_null_scalar_defaults (cbor : List Nat → Except DecodeError (Option Value))
    (rb : RecordBatch) (i : Nat) :
    (rb.keyCol = none → cellAt rb.keyCol i = none) ∧
    (cellAt rb.keyCol i = none → rowKey rb i = "") ∧
    ((cellAt rb.typeCol i).getD 0 = 1 → cellAt rb.strCol i = none →
      rowKeyValue cbor rb i = .ok (some (rowKey rb i, .StringValue ""))) ∧
    ((cellAt rb.typeCol i).getD 0 = 2 → cellAt rb.intCol i = none →
      rowKeyValue cbor rb i = .ok (some (rowKey rb i, .IntValue 0))) ∧
    ((cellAt rb.typeCol i).getD 0 = 3 → cellAt rb.doubleCol i = none →
      rowKeyValue cbor rb i = .ok (some (rowKey rb i, .DoubleValue 0))) ∧
    ((cellAt rb.typeCol i).getD 0 = 4 → cellAt rb.boolCol i = none →
      rowKeyValue cbor rb i = .ok (some (rowKey rb i, .BoolValue false))) ∧
    ((cellAt rb.typeCol i).getD 0 = 7 → cellAt rb.bytesCol i = none →
      rowKeyValue cbor rb i = .ok (some (rowKey rb i, .BytesValue []))) := by
  refine ⟨?_, ?_, ?_, ?_, ?_, ?_, ?_⟩
  · intro h
    rw [h]
    rfl
  · intro h
    unfold rowKey
    rw [h]
    rfl
  · intro htag hcell
    unfold rowKeyValue
    rw [htag, hcell]
    rfl
  · intro htag hcell
    unfold rowKeyValue
    rw [htag, hcell]
    rfl
  · intro htag hcell
    unfold rowKeyValue
    rw [htag, hcell]
    rfl
  · intro htag hcell
    unfold rowKeyValue
    rw [htag, hcell]
    rfl
  · intro htag hcell
    unfold rowKeyValue
    rw [htag, hcell]
    rfl

/-- Witness for C8 at a concrete `Str` row whose key and string-payload
columns are entirely absent. -/
theorem c8_null_scalar_defaults_witness :
    rowKeyValue cborNone rbNullStr 0 = .ok (some (rowKey rbNullStr 0, .StringValue "")) :=
  (c8_null_scalar_defaults cborNone rbNullStr 0).2.2.1 (by rfl) (by rfl)

/-- Claim C2 as amended: a batch with no parent-id column fails with
`ColumnNotFound` naming the parent-id column as soon as the loop reaches a
non-skipped row (all earlier rows being skipped); with zero rows, or with all
rows skipped, the column check is never executed and the decode succeeds (see
the counterexample). -/
theorem c2_missing_parent_column {σ : Type} (w : Nat) (pd : ParentIdDecoder σ)
    (cbor : List Nat → Except DecodeError (Option Value)) (rb : RecordBatch)
    (i : Nat) (kv : String × Value)
    (h1 : rb.parentIdCol = none)
    (h4 : i < rb.numRows)
    (h2 : rowKeyValue cbor rb i = .ok (some kv))
    (h3 : ∀ l, l < i → rowKeyValue cbor rb l = .ok none) :
    AttributeStore.tryFrom w pd cbor rb = .error (.columnNotFound parentIdName) := by
  obtain ⟨key, value⟩ := kv
  have hpre : decodeRows pd cbor rb (pd.init, []) 0 i = .ok (pd.init, []) :=
    decodeRows_all_skip pd cbor rb i 0 (pd.init, []) (fun l hl => by
      simpa using h3 l hl)
  have hstep : stepRow pd cbor rb (pd.init, []) i =
      .error (.columnNotFound parentIdName) := by
    unfold stepRow
    rw [h2, h1]
  exact tryFrom_error_of_step w pd cbor rb i _ _ h4 hpre hstep

/-- Witness for C2 (amended) at a concrete one-row batch whose single row is a
non-skipped `Str` row and whose parent-id column is absent. -/
theorem c2_missing_parent_column_witness :
    AttributeStore.tryFrom 16 pdRaw cborNone
      ⟨1, none, some [some 1], none, none, none, none, none, none, none⟩ =
      .error (.columnNotFound parentIdName) :=
  c2_missing_parent_column 16 pdRaw cborNone
    ⟨1, none, some [some 1], none, none, none, none, none, none, none⟩
    0 ("", .StringValue "") (by rfl) (by decide) (by rfl)
    (fun l hl => absurd hl (by omega))

/-- Counterexample to claim C2 as stated: a zero-row batch in which every
other column is present (and well-formed) but the parent-id column is
entirely absent decodes successfully to the empty store instead of failing
with `ColumnNotFound` — the mandatory-column check sits inside the row loop
and is only executed for non-skipped rows. -/
theorem c2_missing_parent_column_counterexample :
    rbNoParent.parentIdCol = none ∧
    AttributeStore.tryFrom 16 pdRaw cborNone rbNoParent = .ok ⟨0, []⟩ :=
  ⟨rfl, rfl⟩

/-- Claim C6: decoding returns either a fully populated store or a single
error, never a partial store: if the loop reaches row `i` successfully and
row `i`'s step fails, the whole decode returns exactly that error (the first
fatal condition in row order, all partial work discarded); if the decode
succeeds, every row was processed and the returned store is the final fold
state with cursor 0. -/
theorem c6_atomicity_first_error {σ : Type} (w : Nat) (pd : ParentIdDecoder σ)
    (cbor : List Nat → Except DecodeError (Option Value)) (rb : RecordBatch) :
    (∀ (i : Nat) (st : σ × List (Nat × List KeyValue)) (e : DecodeError),
      i < rb.numRows →
      decodeRows pd cbor rb (pd.init, []) 0 i = .ok st →
      stepRow pd cbor rb st i = .error e →
      AttributeStore.tryFrom w pd cbor rb = .error e) ∧
    (∀ store : AttributeStore w,
      AttributeStore.tryFrom w pd cbor rb = .ok store →
      ∃ s : σ, decodeRows pd cbor rb (pd.init, []) 0 rb.numRows =
          .ok (s, store.attribute_by_ids) ∧ store.last_id = 0) := by
  constructor
  · intro i st e hi hpre hstep
    exact tryFrom_error_of_step w pd cbor rb i st e hi hpre hstep
  · intro store hs
    unfold AttributeStore.tryFrom at hs
    cases hd : decodeRows pd cbor rb (pd.init, []) 0 rb.numRows with
    | error e =>
      rw [hd] at hs
      simp at hs
    | ok st =>
      rw [hd] at hs
      simp only [Except.ok.injEq] at hs
      refine ⟨st.1, ?_, ?_⟩
      · rw [← hs]
      · rw [← hs]

/-- Witness for C6 at a concrete batch erroring at row 1 after a successful
row 0. -/
theorem c6_atomicity_first_error_witness :
    AttributeStore.tryFrom 32 pdRaw cborNone rbTag99 =
      .error (.unrecognizedValueType 99) :=
  (c6_atomicity_first_error 32 pdRaw cborNone rbTag99).1 1
    ((), [(1, [⟨"", some ⟨some (.StringValue "")⟩⟩])])
    (.unrecognizedValueType 99) (by decide) (by rfl) (by rfl)

theorem valueAt_materializeDict (values : List Nat) (indices : Column Nat) (i : Nat) :
    (ParentIdColumn.dict values indices).valueAt i =
      (ParentIdColumn.plain (materializeDict values indices)).valueAt i := by
  show ((indices.get? i).getD none).bind (fun ix => values.get? ix) =
    ((materializeDict values indices).get? i).getD none
  unfold materializeDict
  rw [List.get?_map]
  cases indices.get? i with
  | none => rfl
  | some oi => cases oi <;> rfl

/-- Claim C9: decoding a batch whose parent-id column is dictionary-encoded
produces the same store as decoding the otherwise-identical batch whose
parent-id column is the plain materialization of the dictionary (same per-row
ids): dictionary encoding is transparently materialized before the per-row
value reaches the parent-id resolver. -/
theorem c9_dict_transparency {σ : Type} (w : Nat) (pd : ParentIdDecoder σ)
    (cbor : List Nat → Except DecodeError (Option Value)) (rb : RecordBatch)
    (values : List Nat) (indices : Column Nat)
    (h : rb.parentIdCol = some (.dict values indices)) :
    AttributeStore.tryFrom w pd cbor rb =
      AttributeStore.tryFrom w pd cbor
        { rb with parentIdCol := some (.plain (materializeDict values indices)) } := by
  have hrv : ∀ i, rowKeyValue cbor
      { rb with parentIdCol := some (.plain (materializeDict values indices)) } i =
      rowKeyValue cbor rb i := fun _ => rfl
  have hstep : ∀ st idx, stepRow pd cbor rb st idx =
      stepRow pd cbor
        { rb with parentIdCol := some (.plain (materializeDict values indices)) }
        st idx := by
    intro st idx
    unfold stepRow
    rw [hrv idx]
    cases rowKeyValue cbor rb idx with
    | error e => rfl
    | ok o =>
      cases o with
      | none => rfl
      | some kv =>
        obtain ⟨key, value⟩ := kv
        show (match rb.parentIdCol with
          | none => Except.error (DecodeError.columnNotFound parentIdName)
          | some pcol =>
            Except.ok ((pd.decode st.1 ((pcol.valueAt idx).getD 0) key value).2,
              updateBucket st.2
                (pd.decode st.1 ((pcol.valueAt idx).getD 0) key value).1 key value)) = _
        rw [h]
        show Except.ok
            ((pd.decode st.1 (((ParentIdColumn.dict values indices).valueAt idx).getD 0)
                key value).2, _) = _
        rw [valueAt_materializeDict]
  have hloop : ∀ count st idx,
      decodeRows pd cbor rb st idx count =
        decodeRows pd cbor
          { rb with parentIdCol := some (.plain (materializeDict values indices)) }
          st idx count := by
    intro count
    induction count with
    | zero => intro st idx; rfl
    | succ count ih =>
      intro st idx
      have hA : decodeRows pd cbor rb st idx (count + 1) =
          (match stepRow pd cbor rb st idx with
            | .error e => .error e
            | .ok st' => decodeRows pd cbor rb st' (idx + 1) count) := rfl
      have hB : decodeRows pd cbor
          { rb with parentIdCol := some (.plain (materializeDict values indices)) }
          st idx (count + 1) =
          (match stepRow pd cbor
              { rb with parentIdCol := some (.plain (materializeDict values indices)) }
              st idx with
            | .error e => .error e
            | .ok st' => decodeRows pd cbor
                { rb with parentIdCol := some (.plain (materializeDict values indices)) }
                st' (idx + 1) count) := rfl
      rw [hA, hB, ← hstep st idx]
      cases stepRow pd cbor rb st idx with
      | error e => rfl
      | ok st' => exact ih st' (idx + 1)
  unfold AttributeStore.tryFrom
  rw [hloop rb.numRows (pd.init, []) 0]

/-- Witness for C9 at a concrete one-row batch with a dictionary-encoded
parent-id column (index 1 resolving to id 20). -/
theorem c9_dict_transparency_witness :
    AttributeStore.tryFrom 16 pdRaw cborNone rbDict =
      AttributeStore.tryFrom 16 pdRaw cborNone
        { rbDict with parentIdCol := some (.plain (materializeDict [10, 20] [some 1])) } :=
  c9_dict_transparency 16 pdRaw cborNone rbDict [10, 20] [some 1] (by rfl)

/-- Claim C5: a row tagged `Empty`, or tagged `Map`/`Slice` whose serialized
payload cell is absent or for which the external decoder returns no value,
contributes no entry (the loop `continue`s); and a bucket exists in the map
for a parent id iff at least one non-skipped row resolved to that parent id:
skipped rows never create an empty bucket. -/
theorem c5_skip_semantics {σ : Type} (w : Nat) (pd : ParentIdDecoder σ)
    (cbor : List Nat → Except DecodeError (Option Value)) (rb : RecordBatch)
    (store : AttributeStore w) (L : List (Nat × String × Value))
    (hL : attributeContribs pd cbor rb = .ok L)
    (hs : AttributeStore.tryFrom w pd cbor rb = .ok store) :
    (∀ p, (store.attributeById p).isSome = true ↔ p ∈ L.map (fun t => t.1)) ∧
    (∀ i, (cellAt rb.typeCol i).getD 0 = 0 → rowKeyValue cbor rb i = .ok none) ∧
    (∀ i, ((cellAt rb.typeCol i).getD 0 = 5 ∨ (cellAt rb.typeCol i).getD 0 = 6) →
      cellAt rb.serCol i = none → rowKeyValue cbor rb i = .ok none) ∧
    (∀ i bs, ((cellAt rb.typeCol i).getD 0 = 5 ∨ (cellAt rb.typeCol i).getD 0 = 6) →
      cellAt rb.serCol i = some bs → cbor bs = .ok none →
      rowKeyValue cbor rb i = .ok none) := by
  obtain ⟨hlid, hbk⟩ := tryFrom_ok_buckets w pd cbor rb store L hs hL
  refine ⟨?_, ?_, ?_, ?_⟩
  · intro p
    unfold AttributeStore.attributeById
    rw [hbk, bucketGet_foldBuckets]
    rw [show bucketGet [] p = none from rfl]
    constructor
    · intro h
      by_contra hmem
      rw [(pairsFor_eq_nil_iff p L).mpr hmem] at h
      simp [applyPairs] at h
    · intro hmem
      have hne : pairsFor p L ≠ [] := fun hnil => (pairsFor_eq_nil_iff p L).mp hnil hmem
      rw [applyPairs_none_of_ne_nil _ hne]
      rfl
  · intro i htag
    unfold rowKeyValue
    rw [htag]
    rfl
  · intro i htag hser
    unfold rowKeyValue
    rcases htag with h | h <;> rw [h, hser] <;> rfl
  · intro i bs htag hser hc
    rcases htag with h | h
    · unfold rowKeyValue
      rw [h, hser]
      show (match cbor bs with
        | Except.error e => Except.error e
        | Except.ok none => Except.ok none
        | Except.ok (some v) => Except.ok (some (rowKey rb i, v))) = Except.ok none
      rw [hc]
    · unfold rowKeyValue
      rw [h, hser]
      show (match cbor bs with
        | Except.error e => Except.error e
        | Except.ok none => Except.ok none
        | Except.ok (some v) => Except.ok (some (rowKey rb i, v))) = Except.ok none
      rw [hc]

/-- Witness for C5 at a concrete two-row batch (row 0 `Empty` and skipped,
row 1 a `Str` row for parent 3): the bucket for 3 exists, the bucket for the
skipped row's raw id 9 does not. -/
theorem c5_skip_semantics_witness :
    (((⟨0, [(3, [⟨"", some ⟨some (.StringValue "")⟩⟩])]⟩ :
        AttributeStore 16).attributeById 3).isSome = true ↔
      3 ∈ ([(3, "", Value.StringValue "")].map (fun t => t.1))) ∧
    (((⟨0, [(3, [⟨"", some ⟨some (.StringValue "")⟩⟩])]⟩ :
        AttributeStore 16).attributeById 9).isSome = true ↔
      9 ∈ ([(3, "", Value.StringValue "")].map (fun t => t.1))) :=
  ⟨(c5_skip_semantics 16 pdRaw cborNone rbSkip _ _ (by rfl) (by rfl)).1 3,
    (c5_skip_semantics 16 pdRaw cborNone rbSkip _ _ (by rfl) (by rfl)).1 9⟩

theorem keysOf_bucketFold_nil_nodup (ps : List (String × Value)) :
    (keysOf (bucketFold [] ps)).Nodup := by
  rw [keysOf_bucketFold]
  rw [show ps.foldl (fun acc t => addKey acc t.1) (keysOf ([] : List KeyValue)) =
      (ps.map (fun t => t.1)).foldl addKey [] from by
    rw [List.foldl_map]
    rfl]
  exact foldl_addKey_nodup _ _ List.nodup_nil

/-- Claim C1: if two non-skipped rows resolving to parent `p` carry key `k` at
(non-skipped row order) positions `i < j` with differing values, and `j` is
the last such row, then after a successful decode the bucket for `p` contains
exactly one entry with key `k`, located at the position where `k` first
appeared in that bucket (the bucket's key sequence is the first-occurrence
order of the keys contributed for `p`), holding the value from row `j`; and
within every bucket all keys are unique. -/
theorem c1_dedup_overwrite {σ : Type} (w : Nat) (pd : ParentIdDecoder σ)
    (cbor : List Nat → Except DecodeError (Option Value)) (rb : RecordBatch)
    (store : AttributeStore w) (L : List (Nat × String × Value)) (p : Nat)
    (k : String) (i j : Nat) (vi vj : Value)
    (hL : attributeContribs pd cbor rb = .ok L)
    (hs : AttributeStore.tryFrom w pd cbor rb = .ok store)
    (hij : i < j)
    (hi : L.get? i = some (p, k, vi))
    (hj : L.get? j = some (p, k, vj))
    (hne : vi ≠ vj)
    (hlast : ∀ l t, j < l → L.get? l = some t → ¬(t.1 = p ∧ t.2.1 = k)) :
    ∃ b, store.attributeById p = some b ∧
      keysOf b = firstOccKeys ((pairsFor p L).map (fun t => t.1)) ∧
      (keysOf b).Nodup ∧
      b.countP (fun kv => kv.key == k) = 1 ∧
      b.get? (posOf k (keysOf b)) = some ⟨k, some ⟨some vj⟩⟩ ∧
      (∀ q b', store.attributeById q = some b' → (keysOf b').Nodup) := by
  obtain ⟨hlid, hbk⟩ := tryFrom_ok_buckets w pd cbor rb store L hs hL
  have hget : ∀ q, store.attributeById q = applyPairs none (pairsFor q L) := by
    intro q
    unfold AttributeStore.attributeById
    rw [hbk, bucketGet_foldBuckets]
    rfl
  have hnp : pairsFor p L ≠ [] := pairsFor_ne_nil_of_get L j p k vj hj
  have hb : store.attributeById p = some (bucketFold [] (pairsFor p L)) := by
    rw [hget p, applyPairs_none_of_ne_nil _ hnp]
  have hkeys : keysOf (bucketFold [] (pairsFor p L)) =
      firstOccKeys ((pairsFor p L).map (fun t => t.1)) := by
    rw [keysOf_bucketFold]
    unfold firstOccKeys
    rw [List.foldl_map]
    rfl
  have hnd : (keysOf (bucketFold [] (pairsFor p L))).Nodup :=
    keysOf_bucketFold_nil_nodup _
  have hlv : lastValueFor k (pairsFor p L) = some vj :=
    lastValueFor_of_get L j p k vj hj hlast
  have hfind : bucketFind k (bucketFold [] (pairsFor p L)) = some ⟨k, some ⟨some vj⟩⟩ := by
    rw [bucketFind_bucketFold, hlv]
  have hmem : k ∈ keysOf (bucketFold [] (pairsFor p L)) :=
    (bucketFind_some_key_mem _ k _ hfind).2
  refine ⟨bucketFold [] (pairsFor p L), hb, hkeys, hnd, ?_, ?_, ?_⟩
  · exact countP_key_eq_one _ k hnd hmem
  · rw [get?_posOf, hfind]
  · intro q b' hq
    rw [hget q] at hq
    by_cases hqnil : pairsFor q L = []
    · rw [hqnil] at hq
      simp [applyPairs] at hq
    · rw [applyPairs_none_of_ne_nil _ hqnil] at hq
      have hb' : b' = bucketFold [] (pairsFor q L) := by
        injection hq with h'
        exact h'.symm
      subst hb'
      exact keysOf_bucketFold_nil_nodup _

/-- Witness for C1 at a concrete two-row batch: both rows resolve to parent 7
with key "foo", row 0 a `Str` value "bar", row 1 an `Int` value 5; the final
bucket holds the single entry ("foo", Int 5) at position 0. -/
theorem c1_dedup_overwrite_witness :
    ∃ b, (⟨0, [(7, [⟨"foo", some ⟨some (.IntValue 5)⟩⟩])]⟩ :
        AttributeStore 16).attributeById 7 = some b ∧
      keysOf b = firstOccKeys
        ((pairsFor 7 [(7, "foo", Value.StringValue "bar"), (7, "foo", Value.IntValue 5)]).map
          (fun t => t.1)) ∧
      (keysOf b).Nodup ∧
      b.countP (fun kv => kv.key == "foo") = 1 ∧
      b.get? (posOf "foo" (keysOf b)) = some ⟨"foo", some ⟨some (.IntValue 5)⟩⟩ ∧
      (∀ q b', (⟨0, [(7, [⟨"foo", some ⟨some (.IntValue 5)⟩⟩])]⟩ :
          AttributeStore 16).attributeById q = some b' → (keysOf b').Nodup) :=
  c1_dedup_overwrite 16 pdRaw cborNone rbDup
    ⟨0, [(7, [⟨"foo", some ⟨some (.IntValue 5)⟩⟩])]⟩
    [(7, "foo", Value.StringValue "bar"), (7, "foo", Value.IntValue 5)]
    7 "foo" 0 1 (.StringValue "bar") (.IntValue 5)
    (by rfl) (by rfl) (by decide) (by rfl) (by rfl) (by decide)
    (fun l t hl hget => by
      rw [List.get?_eq_none.mpr (by simp; omega)] at hget
      exact Option.noConfusion hget)

end OtelStore
